import Mathlib

/-!
Shallow embedding of `src/simple-vector/simple_vector.h` (class `SimpleVector<Type>`
plus the free comparison operators and the `Reserve` proxy helper).

The element type `Type` is embedded as a Lean type `α`; the C++ value-initialized
element `Type{}` is `(default : α)` via `Inhabited α`.  `size_t` values are `Nat`.
Buffers (the `ArrayPtr<Type>` member `array_`) are `List α` whose length is the
number of allocated slots.  Iterators are positions (indices) into the buffer.
All operations are pure state transformers.
-/

/-- Modelled from the spec: `array_ptr.h` is not under `src/`, so the Owning Buffer
(`ArrayPtr`) is modelled from the spec's component contract.  `Allocate(n)` acquires
storage for exactly `n` slots, each default-initialized; `n == 0` allocates nothing. -/
def ArrayPtrAlloc (α : Type) [Inhabited α] (n : Nat) : List α :=
  List.replicate n (default : α)

/-- Writing a sequence of values `vs` into consecutive buffer slots starting at
`start` (the effect of `std::copy` / `std::fill` / `std::generate` over that range). -/
def writeSeq (buf : List α) (start : Nat) (vs : List α) : List α :=
  buf.take start ++ vs ++ buf.drop (start + vs.length)

/-- Embeds class `ReserveProxyObj`: a wrapper around the requested capacity. -/
structure ReserveProxyObj where
  size_ : Nat
deriving Repr, DecidableEq

/-- Embeds `ReserveProxyObj::GetReservedCapacity`. -/
def ReserveProxyObj.GetReservedCapacity (r : ReserveProxyObj) : Nat :=
  r.size_

/-- Embeds the free function `Reserve(size_t capacity_to_reserve)`. -/
def ReserveHint (capacity_to_reserve : Nat) : ReserveProxyObj :=
  ⟨capacity_to_reserve⟩

/-- Embeds `SimpleVector<Type>`: the buffer owned through `array_` together with
the `size_` and `capacity_` fields. -/
structure SimpleVector (α : Type) where
  buffer : List α
  size_ : Nat
  capacity_ : Nat
deriving Repr, DecidableEq

namespace SimpleVector

variable {α : Type}

/-- Embeds `GetSize`. -/
def GetSize (v : SimpleVector α) : Nat :=
  v.size_

/-- Embeds `GetCapacity`. -/
def GetCapacity (v : SimpleVector α) : Nat :=
  v.capacity_

/-- Embeds `IsEmpty`. -/
def IsEmpty (v : SimpleVector α) : Bool :=
  v.size_ == 0

/-- The logically present element sequence, i.e. the range `[begin(), end())`
spanning buffer slots `[0, size_)`. -/
def elems (v : SimpleVector α) : List α :=
  v.buffer.take v.size_

/-- Embeds `Clear`: zeroes `size_`, touching nothing else. -/
def Clear (v : SimpleVector α) : SimpleVector α :=
  { v with size_ := 0 }

/-- Embeds the default constructor `SimpleVector()`: `array_` is a null
`ArrayPtr`, `size_ = 0`, `capacity_ = 0`. -/
def mkDefault : SimpleVector α :=
  { buffer := [], size_ := 0, capacity_ := 0 }

/-- Embeds `SimpleVector(size_t size)`: allocates `size` slots, then
`std::generate` fills `[begin(), end())` with `Type{}`. -/
def mkSized [Inhabited α] (size : Nat) : SimpleVector α :=
  { buffer := writeSeq (ArrayPtrAlloc α size) 0 (List.replicate size (default : α)),
    size_ := size, capacity_ := size }

/-- Embeds `SimpleVector(size_t size, const Type &value)`: allocates `size` slots,
then `std::fill` writes `value` over `[begin(), end())`. -/
def mkFill [Inhabited α] (size : Nat) (value : α) : SimpleVector α :=
  { buffer := writeSeq (ArrayPtrAlloc α size) 0 (List.replicate size value),
    size_ := size, capacity_ := size }

/-- Embeds `SimpleVector(std::initializer_list<Type> init)`: allocates
`init.size()` slots, then `std::copy` writes the literal sequence. -/
def mkInitList [Inhabited α] (init : List α) : SimpleVector α :=
  { buffer := writeSeq (ArrayPtrAlloc α init.length) 0 init,
    size_ := init.length, capacity_ := init.length }

/-- Embeds `SimpleVector(ReserveProxyObj)`: only `capacity_` is set from the
proxy; `array_` stays the default-constructed (null) `ArrayPtr` -- modelled from
the spec's Owning Buffer lifecycle, a null buffer owns zero slots -- and `size_`
keeps its default 0. -/
def fromReserve (reserve_proxy_obj : ReserveProxyObj) : SimpleVector α :=
  { buffer := [], size_ := 0, capacity_ := reserve_proxy_obj.GetReservedCapacity }

/-- Embeds the copy constructor: builds `copy(other.size_)`, `std::copy`s the
elements of `other` into it, then swaps `*this` with `copy`. -/
def copyCtor [Inhabited α] (other : SimpleVector α) : SimpleVector α :=
  let copy : SimpleVector α := mkSized other.size_
  { copy with buffer := writeSeq copy.buffer 0 (other.buffer.take other.size_) }

/-- Embeds copy assignment on the `this != &rhs` path: copy-and-swap, so the
target ends holding a copy of `rhs` (the `lhs` argument is the overwritten
prior value of the target). -/
def copyAssign [Inhabited α] (lhs rhs : SimpleVector α) : SimpleVector α :=
  let _ := lhs
  copyCtor rhs

/-- Embeds the move constructor: `array_.exchange(other.array_)` transfers the
buffer (modelled from the spec: exchange-of-ownership leaves the source buffer
in the null/empty state), `size_` and `capacity_` are copied from `other`, then
`other.Clear()` runs.  Returns `(constructed vector, moved-from other)`. -/
def moveCtor (other : SimpleVector α) : SimpleVector α × SimpleVector α :=
  let dst : SimpleVector α :=
    { buffer := other.buffer, size_ := other.size_, capacity_ := other.capacity_ }
  let src : SimpleVector α := Clear { other with buffer := [] }
  (dst, src)

/-- Embeds move assignment on the `this != &rhs` path: the same exchange /
field-copy / `rhs.Clear()` sequence as the move constructor (the `lhs` argument
is the overwritten prior value of the target).  Returns
`(assigned-to vector, moved-from rhs)`. -/
def moveAssign (lhs rhs : SimpleVector α) : SimpleVector α × SimpleVector α :=
  let _ := lhs
  moveCtor rhs

/-- Embeds the checked accessor `At(size_t index)`: throws `std::out_of_range`
when `index >= size_`, otherwise returns `array_[index]`. -/
def At [Inhabited α] (v : SimpleVector α) (index : Nat) : Except String α :=
  if index ≥ v.size_ then Except.error "out_of_range"
  else Except.ok (v.buffer.getD index default)

/-- Embeds the unchecked `operator[]`: `array_[index]` with no bounds check. -/
def getUnchecked [Inhabited α] (v : SimpleVector α) (index : Nat) : α :=
  v.buffer.getD index default

/-- Embeds `Resize(size_t new_size)` with its three branches: shrink (only
`size_` changes), grow in place (`std::generate` default-initializes
`[size_, new_size)`), and reallocation (`new_capacity = max(new_size, size_ * 2)`,
move `[0, size_)` into the fresh buffer, default-initialize `[size_, new_size)`,
swap buffers, update the fields). -/
def Resize [Inhabited α] (v : SimpleVector α) (new_size : Nat) : SimpleVector α :=
  if new_size < v.size_ then
    { v with size_ := new_size }
  else if new_size > v.size_ ∧ new_size ≤ v.capacity_ then
    { v with
      buffer := writeSeq v.buffer v.size_ (List.replicate (new_size - v.size_) (default : α)),
      size_ := new_size }
  else if new_size > v.capacity_ then
    let new_capacity := max new_size (v.size_ * 2)
    let moved := writeSeq (ArrayPtrAlloc α new_capacity) 0 (v.buffer.take v.size_)
    let filled := writeSeq moved v.size_ (List.replicate (new_size - v.size_) (default : α))
    { buffer := filled, size_ := new_size, capacity_ := new_capacity }
  else
    v

/-- Embeds `PushBack`: `Resize(size_ + 1)` then write `item` at `size_ - 1`. -/
def PushBack [Inhabited α] (v : SimpleVector α) (item : α) : SimpleVector α :=
  let v1 := Resize v (v.size_ + 1)
  { v1 with buffer := v1.buffer.set (v1.size_ - 1) item }

/-- Embeds `Insert(pos, value)` with `pos` as the index `distance(cbegin(), pos)`:
`Resize(size_ + 1)`, `std::copy_backward` shifts the old `[index, size)` range one
slot to the right, the value is written at `index`, and the iterator to the
inserted element (its index) is returned. -/
def Insert [Inhabited α] (v : SimpleVector α) (index : Nat) (value : α) :
    SimpleVector α × Nat :=
  let v1 := Resize v (v.size_ + 1)
  let shifted := writeSeq v1.buffer (index + 1) ((v1.buffer.take (v1.size_ - 1)).drop index)
  let v2 := { v1 with buffer := (shifted.set index value : List α) }
  (v2, index)

/-- Embeds `PopBack`: returns immediately on an empty vector, otherwise
decrements `size_`. -/
def PopBack (v : SimpleVector α) : SimpleVector α :=
  if v.IsEmpty then v else { v with size_ := v.size_ - 1 }

/-- Embeds `Erase(pos)` with `pos` as the index `distance(cbegin(), pos)`:
`std::copy` compacts `[index + 1, size)` down onto `index`, `size_` is
decremented, and the iterator to the slot after the removed element (its index)
is returned.  The source asserts `pos` lies in `[begin(), end())`. -/
def Erase (v : SimpleVector α) (index : Nat) : SimpleVector α × Nat :=
  let shifted := writeSeq v.buffer index ((v.buffer.take v.size_).drop (index + 1))
  ({ v with buffer := shifted, size_ := v.size_ - 1 }, index)

/-- Embeds member `Reserve(size_t new_capacity)`: when `new_capacity > capacity_`,
allocate a fresh buffer of exactly `new_capacity` slots, move `[0, size_)` into
it, swap buffers and update `capacity_`; otherwise do nothing. -/
def ReserveCap [Inhabited α] (v : SimpleVector α) (new_capacity : Nat) : SimpleVector α :=
  if new_capacity > v.capacity_ then
    { v with
      buffer := writeSeq (ArrayPtrAlloc α new_capacity) 0 (v.buffer.take v.size_),
      capacity_ := new_capacity }
  else
    v

/-- Embeds member `swap`: constant-time exchange of buffer, `size_` and
`capacity_` between the two vectors. -/
def swapVec (v other : SimpleVector α) : SimpleVector α × SimpleVector α :=
  (other, v)

/-- Well-formedness tying the fields together: the buffer really holds
`capacity_` allocated slots and the logical size fits in them (the data-model
invariant every allocating constructor establishes). -/
def WF (v : SimpleVector α) : Prop :=
  v.buffer.length = v.capacity_ ∧ v.size_ ≤ v.capacity_

/-- The spec's size/capacity invariant on its own: `GetSize() <= GetCapacity()`. -/
def SizeInv (v : SimpleVector α) : Prop :=
  v.GetSize ≤ v.GetCapacity

end SimpleVector

/-- Embeds `std::lexicographical_compare` on the element ranges: strict
lexicographic less-than using the element type's `<`. -/
def lexCompare [LinearOrder α] : List α → List α → Bool
  | _, [] => false
  | [], _ :: _ => true
  | x :: xs, y :: ys =>
    if x < y then true
    else if y < x then false
    else lexCompare xs ys

/-- Embeds `operator<`: `lexicographical_compare` over `[begin(), end())`. -/
def vecLt [LinearOrder α] (lhs rhs : SimpleVector α) : Bool :=
  lexCompare lhs.elems rhs.elems

/-- Embeds `operator>`: `rhs < lhs`. -/
def vecGt [LinearOrder α] (lhs rhs : SimpleVector α) : Bool :=
  vecLt rhs lhs

/-- Embeds `operator==`: `!(lhs > rhs) && !(lhs < rhs)`. -/
def vecEq [LinearOrder α] (lhs rhs : SimpleVector α) : Bool :=
  !(vecGt lhs rhs) && !(vecLt lhs rhs)

/-- Embeds `operator!=`: `!(lhs == rhs)`. -/
def vecNe [LinearOrder α] (lhs rhs : SimpleVector α) : Bool :=
  !(vecEq lhs rhs)

/-- Embeds `operator<=`: `!(lhs > rhs)`. -/
def vecLe [LinearOrder α] (lhs rhs : SimpleVector α) : Bool :=
  !(vecGt lhs rhs)

/-- Embeds `operator>=`: `!(lhs < rhs)`. -/
def vecGe [LinearOrder α] (lhs rhs : SimpleVector α) : Bool :=
  !(vecLt lhs rhs)

section SupportingLemmas

open SimpleVector

variable {α : Type}

/-- Writing a fitting sequence into a buffer does not change its length. -/
theorem writeSeq_length (buf : List α) (start : Nat) (vs : List α)
    (h : start + vs.length ≤ buf.length) :
    (writeSeq buf start vs).length = buf.length := by
  simp only [writeSeq, List.length_append, List.length_take, List.length_drop]
  omega

/-- Writing a sequence at the start of a buffer overlays its prefix. -/
theorem writeSeq_zero_start (buf vs : List α) :
    writeSeq buf 0 vs = vs ++ buf.drop vs.length := by
  simp [writeSeq]

/-- The prefix of a buffer covering a fitting write is the untouched prefix
followed by the written values. -/
theorem take_writeSeq (buf vs : List α) (start : Nat) (h : start ≤ buf.length) :
    (writeSeq buf start vs).take (start + vs.length) = buf.take start ++ vs := by
  rw [writeSeq]
  exact List.take_left' (by simp only [List.length_append, List.length_take]; omega)

/-- Overwriting the slot between two list fragments. -/
theorem set_middle (A B : List α) (c x : α) :
    (A ++ c :: B).set A.length x = A ++ x :: B := by
  induction A with
  | nil => simp
  | cons a A ih => simp [ih]

/-- The element sequence has exactly `size_` entries whenever the buffer holds
at least `size_` slots. -/
theorem elems_length (v : SimpleVector α) (h : v.size_ ≤ v.buffer.length) :
    (elems v).length = v.size_ := by
  simp only [elems, List.length_take]
  omega

/-- Resize always leaves `size_` equal to the requested size. -/
theorem resize_size [Inhabited α] (v : SimpleVector α) (n : Nat) :
    (Resize v n).size_ = n := by
  rw [Resize]
  split
  · rfl
  · split
    · rfl
    · split
      · rfl
      · omega

/-- First Resize branch: shrinking only sets `size_`. -/
theorem resize_shrink [Inhabited α] (v : SimpleVector α) (n : Nat) (h : n < v.size_) :
    Resize v n = { v with size_ := n } := by
  rw [Resize, if_pos h]

/-- Second Resize branch: growing within capacity default-initializes the newly
exposed slots in place. -/
theorem resize_inplace [Inhabited α] (v : SimpleVector α) (n : Nat)
    (h1 : v.size_ < n) (h2 : n ≤ v.capacity_) :
    Resize v n =
      { v with
        buffer := writeSeq v.buffer v.size_ (List.replicate (n - v.size_) (default : α)),
        size_ := n } := by
  rw [Resize, if_neg (by omega), if_pos ⟨h1, h2⟩]

/-- Third Resize branch: reallocation to capacity `max n (size_ * 2)`. -/
theorem resize_realloc [Inhabited α] (v : SimpleVector α) (n : Nat)
    (hs : v.size_ ≤ v.capacity_) (h : v.capacity_ < n) :
    Resize v n =
      { buffer :=
          writeSeq
            (writeSeq (ArrayPtrAlloc α (max n (v.size_ * 2))) 0 (v.buffer.take v.size_))
            v.size_ (List.replicate (n - v.size_) (default : α)),
        size_ := n, capacity_ := max n (v.size_ * 2) } := by
  rw [Resize, if_neg (by omega), if_neg (by omega), if_pos h]

/-- In-place growth: the old elements survive, the new slots get defaults, and
neither the buffer length nor the capacity changes. -/
theorem elems_resize_inplace [Inhabited α] (v : SimpleVector α) (n : Nat)
    (hwf : WF v) (h1 : v.size_ < n) (h2 : n ≤ v.capacity_) :
    elems (Resize v n) = elems v ++ List.replicate (n - v.size_) (default : α) ∧
      (Resize v n).buffer.length = v.buffer.length ∧
      (Resize v n).capacity_ = v.capacity_ ∧ (Resize v n).size_ = n := by
  obtain ⟨hlen, hsc⟩ := hwf
  rw [resize_inplace v n h1 h2]
  refine ⟨?_, writeSeq_length _ _ _ (by simp only [List.length_replicate]; omega), rfl, rfl⟩
  have key := take_writeSeq v.buffer (List.replicate (n - v.size_) (default : α)) v.size_
    (by omega)
  rw [List.length_replicate] at key
  have hn : v.size_ + (n - v.size_) = n := by omega
  rw [hn] at key
  exact key

/-- Reallocating growth: capacity becomes `max n (size_ * 2)`, the old elements
are moved over in order, the new slots get defaults, and the result is
well-formed. -/
theorem elems_resize_realloc [Inhabited α] (v : SimpleVector α) (n : Nat)
    (hwf : WF v) (h : v.capacity_ < n) :
    elems (Resize v n) = elems v ++ List.replicate (n - v.size_) (default : α) ∧
      (Resize v n).capacity_ = max n (v.size_ * 2) ∧
      (Resize v n).size_ = n ∧ WF (Resize v n) := by
  obtain ⟨hlen, hsc⟩ := hwf
  rw [resize_realloc v n hsc h]
  have hts : (v.buffer.take v.size_).length = v.size_ := by
    simp only [List.length_take]
    omega
  have hmoved :
      (writeSeq (ArrayPtrAlloc α (max n (v.size_ * 2))) 0 (v.buffer.take v.size_)).length =
        max n (v.size_ * 2) := by
    rw [writeSeq_length]
    · simp [ArrayPtrAlloc]
    · simp only [ArrayPtrAlloc, List.length_replicate, Nat.zero_add, hts]
      omega
  have hfilledlen :
      (writeSeq
        (writeSeq (ArrayPtrAlloc α (max n (v.size_ * 2))) 0 (v.buffer.take v.size_))
        v.size_ (List.replicate (n - v.size_) (default : α))).length =
        max n (v.size_ * 2) := by
    rw [writeSeq_length, hmoved]
    rw [hmoved]
    simp only [List.length_replicate]
    omega
  refine ⟨?_, rfl, rfl, hfilledlen, by simp only; omega⟩
  have key := take_writeSeq
    (writeSeq (ArrayPtrAlloc α (max n (v.size_ * 2))) 0 (v.buffer.take v.size_))
    (List.replicate (n - v.size_) (default : α)) v.size_ (by rw [hmoved]; omega)
  rw [List.length_replicate] at key
  have hn : v.size_ + (n - v.size_) = n := by omega
  rw [hn] at key
  show (writeSeq _ v.size_ _).take n = _
  rw [key, writeSeq_zero_start, List.take_append_eq_append_take, hts, Nat.sub_self,
    List.take_zero, List.append_nil, List.take_of_length_le (by omega)]
  rfl

/-- Growing the size by one (`Resize(size_ + 1)` as used by `PushBack` and
`Insert`): the element sequence gains one default slot at the end, and the
resulting vector has at least `size_ + 1` buffer slots. -/
theorem resize_succ_spec [Inhabited α] (v : SimpleVector α) (hwf : WF v) :
    elems (Resize v (v.size_ + 1)) = elems v ++ [(default : α)] ∧
      (Resize v (v.size_ + 1)).size_ = v.size_ + 1 ∧ WF (Resize v (v.size_ + 1)) := by
  by_cases hc : v.size_ + 1 ≤ v.capacity_
  · obtain ⟨he, hb, hcap, hsz⟩ := elems_resize_inplace v (v.size_ + 1) hwf (by omega) hc
    refine ⟨?_, hsz, ?_⟩
    · rw [he]
      simp
    · constructor
      · rw [hb, hcap, hwf.1]
      · rw [hcap, hsz]
        exact hc
  · obtain ⟨he, hcap, hsz, hwf'⟩ :=
      elems_resize_realloc v (v.size_ + 1) hwf (by have := hwf.2; omega)
    refine ⟨?_, hsz, hwf'⟩
    rw [he]
    simp

/-- Erase at a valid index removes exactly that element: the sequence becomes
the part before the index followed by the part after it, the size drops by one,
and capacity and buffer length are untouched. -/
theorem erase_spec (v : SimpleVector α) (q : Nat)
    (hq : q < v.size_) (hlen : v.size_ ≤ v.buffer.length) :
    elems (Erase v q).1 = (elems v).take q ++ (elems v).drop (q + 1) ∧
      (Erase v q).1.size_ = v.size_ - 1 ∧
      (Erase v q).1.capacity_ = v.capacity_ ∧
      (Erase v q).1.buffer.length = v.buffer.length ∧
      (Erase v q).2 = q := by
  have hts : ((v.buffer.take v.size_).drop (q + 1)).length = v.size_ - (q + 1) := by
    simp only [List.length_drop, List.length_take]
    omega
  have key := take_writeSeq v.buffer ((v.buffer.take v.size_).drop (q + 1)) q (by omega)
  rw [hts] at key
  have hn : q + (v.size_ - (q + 1)) = v.size_ - 1 := by omega
  rw [hn] at key
  refine ⟨?_, rfl, rfl, writeSeq_length _ _ _ (by rw [hts]; omega), rfl⟩
  show (writeSeq v.buffer q _).take (v.size_ - 1) = _
  rw [key, elems, List.take_take, Nat.min_def, if_pos (by omega)]

/-- Insert at a valid position: the returned iterator is the insertion index,
the size grows by one, and the element sequence gains `value` at that index
with everything after it shifted right in order. -/
theorem insert_spec [Inhabited α] (v : SimpleVector α) (p : Nat) (value : α)
    (hwf : WF v) (hp : p ≤ v.size_) :
    elems (Insert v p value).1 = (elems v).take p ++ value :: (elems v).drop p ∧
      (Insert v p value).1.size_ = v.size_ + 1 ∧
      (Insert v p value).1.buffer.length = (Resize v (v.size_ + 1)).buffer.length ∧
      (Insert v p value).1.capacity_ = (Resize v (v.size_ + 1)).capacity_ ∧
      (Insert v p value).2 = p := by
  obtain ⟨he1, hs1, hwf1⟩ := resize_succ_spec v hwf
  have helen : (elems v).length = v.size_ := elems_length v (by rw [hwf.1]; exact hwf.2)
  have hb1 : v.size_ + 1 ≤ (Resize v (v.size_ + 1)).buffer.length := by
    have h2 := hwf1.2
    rw [hs1] at h2
    rw [hwf1.1]
    exact h2
  have htake1 : (Resize v (v.size_ + 1)).buffer.take (v.size_ + 1) = elems v ++ [default] := by
    rw [← he1, elems, hs1]
  have htakes : (Resize v (v.size_ + 1)).buffer.take v.size_ = elems v := by
    have hssub : (Resize v (v.size_ + 1)).buffer.take v.size_ =
        ((Resize v (v.size_ + 1)).buffer.take (v.size_ + 1)).take v.size_ := by
      rw [List.take_take, Nat.min_def, if_pos (by omega)]
    rw [hssub, htake1, List.take_append_eq_append_take, helen, Nat.sub_self, List.take_zero,
      List.append_nil, List.take_of_length_le (by omega)]
  have hdlen : (((Resize v (v.size_ + 1)).buffer.take v.size_).drop p).length = v.size_ - p := by
    rw [htakes, List.length_drop, helen]
  have key := take_writeSeq (Resize v (v.size_ + 1)).buffer
    (((Resize v (v.size_ + 1)).buffer.take v.size_).drop p) (p + 1) (by omega)
  rw [hdlen] at key
  have hn : p + 1 + (v.size_ - p) = v.size_ + 1 := by omega
  rw [hn] at key
  have hshiftlen :
      (writeSeq (Resize v (v.size_ + 1)).buffer (p + 1)
        (((Resize v (v.size_ + 1)).buffer.take v.size_).drop p)).length =
        (Resize v (v.size_ + 1)).buffer.length := by
    rw [writeSeq_length]
    rw [hdlen]
    omega
  have hIns : (SimpleVector.Insert v p value).1 =
      { Resize v (v.size_ + 1) with
        buffer := (writeSeq (Resize v (v.size_ + 1)).buffer (p + 1)
          (((Resize v (v.size_ + 1)).buffer.take v.size_).drop p)).set p value } := by
    simp only [SimpleVector.Insert, hs1, Nat.add_sub_cancel]
  refine ⟨?_, by rw [hIns]; exact hs1, by rw [hIns]; simp [hshiftlen], by rw [hIns], rfl⟩
  rw [hIns, elems]
  show ((writeSeq _ (p + 1) _).set p value).take (Resize v (v.size_ + 1)).size_ = _
  rw [hs1, List.set_take, key]
  have htp1 : (Resize v (v.size_ + 1)).buffer.take (p + 1) =
      ((Resize v (v.size_ + 1)).buffer.take (v.size_ + 1)).take (p + 1) := by
    rw [List.take_take, Nat.min_def, if_pos (by omega)]
  rw [htakes, htp1, htake1]
  rcases Nat.lt_or_ge p v.size_ with hps | hps
  · have hp' : p < (elems v).length := by omega
    have hget : (elems v)[p]? = some ((elems v).get ⟨p, hp'⟩) :=
      List.getElem?_eq_getElem hp'
    have h1 : (elems v ++ [(default : α)]).take (p + 1) = (elems v).take (p + 1) := by
      rw [List.take_append_eq_append_take, helen, show p + 1 - v.size_ = 0 from by omega,
        List.take_zero, List.append_nil]
    have h2 : (elems v).take (p + 1) = (elems v).take p ++ [(elems v).get ⟨p, hp'⟩] := by
      rw [List.take_succ, hget]
      rfl
    rw [h1, h2, List.append_assoc, List.singleton_append]
    have hlt : ((elems v).take p).length = p := by
      rw [List.length_take]
      omega
    have hm := set_middle ((elems v).take p) ((elems v).drop p) ((elems v).get ⟨p, hp'⟩) value
    rw [hlt] at hm
    exact hm
  · have hpeq : p = v.size_ := by omega
    subst hpeq
    rw [List.take_of_length_le (by rw [List.length_append, helen, List.length_singleton]),
      List.drop_of_length_le (by omega), List.append_nil,
      List.take_of_length_le (by omega), ← helen, set_middle]

/-- The embedded `std::lexicographical_compare` decides exactly the
mathematical lexicographic strict order on the element lists. -/
theorem lexCompare_iff_lex [LinearOrder α] (xs ys : List α) :
    lexCompare xs ys = true ↔ List.Lex (· < ·) xs ys := by
  induction xs generalizing ys with
  | nil =>
    cases ys with
    | nil => simp [lexCompare]
    | cons y ys =>
      simp only [lexCompare]
      exact iff_of_true (by trivial) List.Lex.nil
  | cons x xs ih =>
    cases ys with
    | nil => simp [lexCompare]
    | cons y ys =>
      simp only [lexCompare]
      rcases lt_trichotomy x y with h | h | h
      · rw [if_pos h]
        exact iff_of_true rfl (List.Lex.rel h)
      · subst h
        rw [if_neg (lt_irrefl x), if_neg (lt_irrefl x)]
        exact (ih ys).trans List.Lex.cons_iff.symm
      · rw [if_neg (asymm h), if_pos h]
        constructor
        · intro hfalse
          exact absurd hfalse (by simp)
        · intro hL
          cases hL with
          | cons h' => exact absurd h (lt_irrefl x)
          | rel h' => exact absurd h (asymm h')

/-- Neither list lexicographically preceding the other is exactly equality of
the lists (for a linearly ordered element type). -/
theorem lexCompare_both_false_iff_eq [LinearOrder α] (xs ys : List α) :
    (lexCompare xs ys = false ∧ lexCompare ys xs = false) ↔ xs = ys := by
  induction xs generalizing ys with
  | nil =>
    cases ys with
    | nil => simp [lexCompare]
    | cons y ys => simp [lexCompare]
  | cons x xs ih =>
    cases ys with
    | nil => simp [lexCompare]
    | cons y ys =>
      simp only [lexCompare]
      rcases lt_trichotomy x y with h | h | h
      · rw [if_pos h]
        simp only [Bool.true_eq_false, false_and, false_iff]
        intro heq
        rw [List.cons.injEq] at heq
        exact absurd (heq.1 ▸ h) (lt_irrefl y)
      · subst h
        simp only [if_neg (lt_irrefl x), List.cons.injEq, eq_self_iff_true, true_and]
        exact ih ys
      · have hne : x ≠ y := fun he => absurd (he ▸ h) (lt_irrefl y)
        constructor
        · intro hc
          obtain ⟨hc1, hc2⟩ := hc
          rw [if_pos h] at hc2
          exact absurd hc2 (by simp)
        · intro heq
          rw [List.cons.injEq] at heq
          exact absurd heq.1 hne

/-- Resize preserves the size/capacity invariant. -/
theorem resize_sizeInv [Inhabited α] (v : SimpleVector α) (n : Nat) (h : SizeInv v) :
    SizeInv (Resize v n) := by
  simp only [SizeInv, GetSize, GetCapacity] at h
  by_cases h1 : n < v.size_
  · rw [resize_shrink v n h1]
    simp only [SizeInv, GetSize, GetCapacity]
    omega
  · by_cases h2 : n ≤ v.capacity_
    · by_cases h3 : v.size_ < n
      · rw [resize_inplace v n h3 h2]
        simp only [SizeInv, GetSize, GetCapacity]
        omega
      · rw [Resize, if_neg h1, if_neg (by omega), if_neg (by omega)]
        exact h
    · rw [resize_realloc v n h (by omega)]
      simp only [SizeInv, GetSize, GetCapacity]
      omega

end SupportingLemmas

section Claims

open SimpleVector

variable {α : Type}

/-- C1: the claim says that after move-construction or move-assignment the
source is reset to `GetSize() == 0` and `GetCapacity() == 0`.  Evaluating the
embedded code on the concrete vector `SimpleVector{1,2,3}` (size 3, capacity 3)
shows the destination does receive exactly the source's prior buffer, size and
capacity, and the source's size becomes 0 -- but the source's capacity stays 3,
because `other.Clear()` only zeroes `size_` and nothing ever resets
`capacity_`.  So the `a.GetCapacity() == 0` part of the claim fails on the
code. -/
theorem C1_move_source_keeps_capacity :
    (moveCtor (mkInitList ([1, 2, 3] : List Int))).1 = mkInitList ([1, 2, 3] : List Int) ∧
    GetSize (moveCtor (mkInitList ([1, 2, 3] : List Int))).2 = 0 ∧
    GetCapacity (moveCtor (mkInitList ([1, 2, 3] : List Int))).2 = 3 ∧
    (moveAssign mkDefault (mkInitList ([1, 2, 3] : List Int))).1 =
      mkInitList ([1, 2, 3] : List Int) ∧
    GetSize (moveAssign mkDefault (mkInitList ([1, 2, 3] : List Int))).2 = 0 ∧
    GetCapacity (moveAssign mkDefault (mkInitList ([1, 2, 3] : List Int))).2 = 3 := by
  refine ⟨?_, rfl, rfl, ?_, rfl, rfl⟩ <;> decide

/-- C2: the claim says the reserve-hint constructor allocates exactly `h`
default-initialized slots.  Evaluating the embedded code at hint 5: the
resulting vector has size 0 and capacity 5 as claimed, but its buffer is the
default-constructed null `ArrayPtr` holding 0 slots, not 5, unlike `mkSized 5`
whose buffer holds exactly 5 default slots.  The allocation part of the claim
fails on the code. -/
theorem C2_reserve_ctor_leaves_buffer_unallocated :
    GetSize (fromReserve (ReserveHint 5) : SimpleVector Int) = 0 ∧
    GetCapacity (fromReserve (ReserveHint 5) : SimpleVector Int) = 5 ∧
    (fromReserve (ReserveHint 5) : SimpleVector Int).buffer.length = 0 ∧
    (mkSized 5 : SimpleVector Int).buffer.length = 5 ∧
    (mkSized 5 : SimpleVector Int).buffer = List.replicate 5 (default : Int) ∧
    (fromReserve (ReserveHint 5) : SimpleVector Int).buffer ≠ List.replicate 5 (default : Int) := by
  refine ⟨rfl, rfl, rfl, ?_, ?_, ?_⟩ <;> decide

/-- C3: `Resize(new_size)` with `new_size` above the capacity reallocates to
capacity `max(new_size, size * 2)`, keeps the existing elements `[0, size)` in
order, default-initializes `[size, new_size)`, and sets the size to
`new_size`. -/
theorem C3_resize_grow_reallocates [Inhabited α] (v : SimpleVector α) (n : Nat)
    (hwf : WF v) (h : GetCapacity v < n) :
    GetCapacity (Resize v n) = max n (GetSize v * 2) ∧
    GetSize (Resize v n) = n ∧
    elems (Resize v n) = elems v ++ List.replicate (n - GetSize v) (default : α) := by
  obtain ⟨he, hc, hs, _⟩ := elems_resize_realloc v n hwf h
  exact ⟨hc, hs, he⟩

/-- C3 witness: growing `SimpleVector{1,2}` (size 2, capacity 2) to size 3
yields capacity `max 3 4 = 4`, size 3 and elements `{1,2,0}`. -/
theorem C3_witness :
    WF (mkInitList ([1, 2] : List Int)) ∧
    GetCapacity (mkInitList ([1, 2] : List Int)) < 3 ∧
    (GetCapacity (Resize (mkInitList ([1, 2] : List Int)) 3) =
        max 3 (GetSize (mkInitList ([1, 2] : List Int)) * 2) ∧
      GetSize (Resize (mkInitList ([1, 2] : List Int)) 3) = 3 ∧
      elems (Resize (mkInitList ([1, 2] : List Int)) 3) =
        elems (mkInitList ([1, 2] : List Int)) ++
          List.replicate (3 - GetSize (mkInitList ([1, 2] : List Int))) (default : Int)) :=
  ⟨⟨by decide, by decide⟩, by decide,
    C3_resize_grow_reallocates (mkInitList ([1, 2] : List Int)) 3 ⟨by decide, by decide⟩
      (by decide)⟩

/-- C4: `Resize(new_size)` with `new_size < size` only sets `size_`, leaving
capacity and storage untouched; regrowing afterwards to any larger target
within the old capacity keeps the capacity and buffer (no reallocation),
preserves `[0, n1)`, and reinstates default values over the regrown region. -/
theorem C4_resize_shrink_then_regrow [Inhabited α] (v : SimpleVector α) (n1 n2 : Nat)
    (hwf : WF v) (h1 : n1 < GetSize v) (h2 : n1 < n2) (h3 : n2 ≤ GetCapacity v) :
    Resize v n1 = { v with size_ := n1 } ∧
    GetCapacity (Resize (Resize v n1) n2) = GetCapacity v ∧
    (Resize (Resize v n1) n2).buffer.length = v.buffer.length ∧
    GetSize (Resize (Resize v n1) n2) = n2 ∧
    elems (Resize (Resize v n1) n2) =
      (elems v).take n1 ++ List.replicate (n2 - n1) (default : α) := by
  have hshr := resize_shrink v n1 h1
  obtain ⟨he, hb, hc, hs⟩ := elems_resize_inplace { v with size_ := n1 } n2
    ⟨hwf.1, show n1 ≤ v.capacity_ by
      have := hwf.2
      simp only [GetSize, GetCapacity] at h1 h3
      omega⟩ h2 h3
  have helems : elems { v with size_ := n1 } = (elems v).take n1 := by
    simp only [elems, List.take_take, Nat.min_def]
    rw [if_pos (by simp only [GetSize] at h1; omega)]
  rw [hshr]
  exact ⟨rfl, hc, hb, hs, by rw [he, helems]⟩

/-- C4 witness: shrinking `SimpleVector{7,8,9}` to size 1 and regrowing to
size 3 keeps capacity 3 and yields elements `{7,0,0}`, not the stale
`{7,8,9}`. -/
theorem C4_witness :
    WF (mkInitList ([7, 8, 9] : List Int)) ∧
    1 < GetSize (mkInitList ([7, 8, 9] : List Int)) ∧
    (1 : Nat) < 3 ∧
    3 ≤ GetCapacity (mkInitList ([7, 8, 9] : List Int)) ∧
    (Resize (mkInitList ([7, 8, 9] : List Int)) 1 =
        { mkInitList ([7, 8, 9] : List Int) with size_ := 1 } ∧
      GetCapacity (Resize (Resize (mkInitList ([7, 8, 9] : List Int)) 1) 3) =
        GetCapacity (mkInitList ([7, 8, 9] : List Int)) ∧
      (Resize (Resize (mkInitList ([7, 8, 9] : List Int)) 1) 3).buffer.length =
        (mkInitList ([7, 8, 9] : List Int)).buffer.length ∧
      GetSize (Resize (Resize (mkInitList ([7, 8, 9] : List Int)) 1) 3) = 3 ∧
      elems (Resize (Resize (mkInitList ([7, 8, 9] : List Int)) 1) 3) =
        (elems (mkInitList ([7, 8, 9] : List Int))).take 1 ++
          List.replicate (3 - 1) (default : Int)) :=
  ⟨⟨by decide, by decide⟩, by decide, by decide, by decide,
    C4_resize_shrink_then_regrow (mkInitList ([7, 8, 9] : List Int)) 1 3
      ⟨by decide, by decide⟩ (by decide) (by decide) (by decide)⟩

/-- C5: the checked accessor `At(i)` reports `std::out_of_range` exactly when
`i >= size`, and otherwise returns the element at index `i`.  `At` is embedded
as a pure observer returning `Except`, so it cannot modify the vector's size,
capacity or elements. -/
theorem C5_at_checked_access [Inhabited α] (v : SimpleVector α) (i : Nat) :
    ((∃ msg, At v i = Except.error msg) ↔ GetSize v ≤ i) ∧
    (i < GetSize v → At v i = Except.ok ((elems v).getD i default)) := by
  constructor
  · constructor
    · rintro ⟨msg, hmsg⟩
      by_contra hlt
      rw [At, if_neg (by simp only [GetSize] at hlt; omega)] at hmsg
      exact absurd hmsg (by simp)
    · intro hge
      exact ⟨"out_of_range", by rw [At, if_pos (show i ≥ v.size_ from hge)]⟩
  · intro hlt
    simp only [GetSize] at hlt
    rw [At, if_neg (by omega)]
    congr 1
    rw [List.getD_eq_getElem?_getD, List.getD_eq_getElem?_getD, elems,
      List.getElem?_take_of_lt hlt]

/-- C5 witness: on the size-3 vector `{1,2,3}`, `At(5)` reports out-of-range
and `At(1)` returns element 2. -/
theorem C5_witness :
    ((∃ msg, At (mkInitList ([1, 2, 3] : List Int)) 5 = Except.error msg) ↔
      GetSize (mkInitList ([1, 2, 3] : List Int)) ≤ 5) ∧
    (1 < GetSize (mkInitList ([1, 2, 3] : List Int)) →
      At (mkInitList ([1, 2, 3] : List Int)) 1 =
        Except.ok ((elems (mkInitList ([1, 2, 3] : List Int))).getD 1 default)) :=
  ⟨(C5_at_checked_access (mkInitList ([1, 2, 3] : List Int)) 5).1,
    (C5_at_checked_access (mkInitList ([1, 2, 3] : List Int)) 1).2⟩

/-- C6: `Insert` at a valid position `p` shifts `[p, s)` right by one in order,
writes the value at `p`, and returns the position of the inserted element;
`Erase` at that returned position restores exactly the pre-insert element
sequence (capacity aside). -/
theorem C6_insert_erase_round_trip [Inhabited α] (v : SimpleVector α) (p : Nat) (x : α)
    (hwf : WF v) (hp : p ≤ GetSize v) :
    (SimpleVector.Insert v p x).2 = p ∧
    GetSize (SimpleVector.Insert v p x).1 = GetSize v + 1 ∧
    elems (SimpleVector.Insert v p x).1 = (elems v).take p ++ x :: (elems v).drop p ∧
    elems (Erase (SimpleVector.Insert v p x).1 (SimpleVector.Insert v p x).2).1 = elems v ∧
    GetSize (Erase (SimpleVector.Insert v p x).1 (SimpleVector.Insert v p x).2).1 =
      GetSize v := by
  obtain ⟨he, hs, hblen, hcap, hidx⟩ := insert_spec v p x hwf hp
  simp only [GetSize] at hp ⊢
  have helen : (elems v).length = v.size_ := elems_length v (by rw [hwf.1]; exact hwf.2)
  have hwf1len : (SimpleVector.Insert v p x).1.size_ ≤
      (SimpleVector.Insert v p x).1.buffer.length := by
    obtain ⟨_, hs1, hwf1⟩ := resize_succ_spec v hwf
    have h2 := hwf1.2
    rw [hs1] at h2
    rw [hblen, hs, hwf1.1]
    exact h2
  obtain ⟨hee, hes, _, _, _⟩ := erase_spec (SimpleVector.Insert v p x).1 p
    (by rw [hs]; omega) hwf1len
  rw [hidx]
  refine ⟨rfl, hs, he, ?_, ?_⟩
  · rw [hee, he]
    have h1 : ((elems v).take p ++ x :: (elems v).drop p).take p = (elems v).take p := by
      rw [List.take_append_eq_append_take,
        List.take_of_length_le (by rw [List.length_take]; omega),
        show p - ((elems v).take p).length = 0 from by rw [List.length_take]; omega,
        List.take_zero, List.append_nil]
    have h2 : ((elems v).take p ++ x :: (elems v).drop p).drop (p + 1) = (elems v).drop p := by
      rw [List.drop_append_eq_append_drop,
        List.drop_of_length_le (by rw [List.length_take]; omega),
        show p + 1 - ((elems v).take p).length = 1 from by rw [List.length_take]; omega,
        List.drop_one, List.tail_cons, List.nil_append]
    rw [h1, h2, List.take_append_drop]
  · rw [hes, hs]
    omega

/-- C6 witness: inserting 99 at position 1 of `{10,20,30}` gives `{10,99,20,30}`
with the iterator at index 1, and erasing at that position restores
`{10,20,30}`. -/
theorem C6_witness :
    WF (mkInitList ([10, 20, 30] : List Int)) ∧
    1 ≤ GetSize (mkInitList ([10, 20, 30] : List Int)) ∧
    ((SimpleVector.Insert (mkInitList ([10, 20, 30] : List Int)) 1 99).2 = 1 ∧
      GetSize (SimpleVector.Insert (mkInitList ([10, 20, 30] : List Int)) 1 99).1 =
        GetSize (mkInitList ([10, 20, 30] : List Int)) + 1 ∧
      elems (SimpleVector.Insert (mkInitList ([10, 20, 30] : List Int)) 1 99).1 =
        (elems (mkInitList ([10, 20, 30] : List Int))).take 1 ++
          99 :: (elems (mkInitList ([10, 20, 30] : List Int))).drop 1 ∧
      elems (Erase (SimpleVector.Insert (mkInitList ([10, 20, 30] : List Int)) 1 99).1
          (SimpleVector.Insert (mkInitList ([10, 20, 30] : List Int)) 1 99).2).1 =
        elems (mkInitList ([10, 20, 30] : List Int)) ∧
      GetSize (Erase (SimpleVector.Insert (mkInitList ([10, 20, 30] : List Int)) 1 99).1
          (SimpleVector.Insert (mkInitList ([10, 20, 30] : List Int)) 1 99).2).1 =
        GetSize (mkInitList ([10, 20, 30] : List Int))) :=
  ⟨⟨by decide, by decide⟩, by decide,
    C6_insert_erase_round_trip (mkInitList ([10, 20, 30] : List Int)) 1 99
      ⟨by decide, by decide⟩ (by decide)⟩

/-- C7: `operator<` decides exactly the lexicographic strict order on the
element sequences, `operator==` holds exactly when the element sequences are
equal (capacities are never consulted), the remaining operators are the
derived relations from the source, and the spec's concrete comparisons hold. -/
theorem C7_lexicographic_comparisons [LinearOrder α] (a b : SimpleVector α) :
    (vecLt a b = true ↔ List.Lex (· < ·) (elems a) (elems b)) ∧
    (vecEq a b = true ↔ elems a = elems b) ∧
    vecGt a b = vecLt b a ∧
    vecNe a b = !vecEq a b ∧
    vecLe a b = !vecGt a b ∧
    vecGe a b = !vecLt a b ∧
    vecLt (mkInitList ([1, 2, 3] : List Int)) (mkInitList [1, 2, 4]) = true ∧
    vecLt (mkInitList ([1, 2] : List Int)) (mkInitList [1, 2, 3]) = true ∧
    vecEq (mkInitList ([1, 2, 3] : List Int)) (mkInitList [1, 2, 3]) = true ∧
    vecGt (mkInitList ([2] : List Int)) (mkInitList [1, 9, 9]) = true := by
  refine ⟨lexCompare_iff_lex (elems a) (elems b), ?_, rfl, rfl, rfl, rfl,
    by decide, by decide, by decide, by decide⟩
  constructor
  · intro h
    simp only [vecEq, vecGt, vecLt, Bool.and_eq_true, Bool.not_eq_true'] at h
    exact (lexCompare_both_false_iff_eq (elems a) (elems b)).1 ⟨h.2, h.1⟩
  · intro h
    have := (lexCompare_both_false_iff_eq (elems a) (elems b)).2 h
    simp only [vecEq, vecGt, vecLt, Bool.and_eq_true, Bool.not_eq_true']
    exact ⟨this.2, this.1⟩

/-- C8: `PopBack` never signals an error: it is a no-op on an empty vector, and
on a non-empty vector it removes exactly the last element, keeping `[0, s-1)`,
the capacity and the buffer unchanged. -/
theorem C8_popback_no_error (v : SimpleVector α) :
    (IsEmpty v = true → PopBack v = v) ∧
    (IsEmpty v = false →
      GetSize (PopBack v) = GetSize v - 1 ∧
      GetCapacity (PopBack v) = GetCapacity v ∧
      (PopBack v).buffer = v.buffer ∧
      elems (PopBack v) = (elems v).take (GetSize v - 1)) := by
  constructor
  · intro h
    rw [PopBack, if_pos h]
  · intro h
    rw [PopBack, if_neg (by simp [h])]
    refine ⟨rfl, rfl, rfl, ?_⟩
    simp only [elems, GetSize, List.take_take, Nat.min_def]
    rw [if_pos (by omega)]

/-- C8 witness: `PopBack` on the empty default vector is a no-op, and on
`{1,2,3}` it leaves `{1,2}` with capacity 3. -/
theorem C8_witness :
    (IsEmpty (mkDefault : SimpleVector Int) = true →
      PopBack (mkDefault : SimpleVector Int) = mkDefault) ∧
    (IsEmpty (mkInitList ([1, 2, 3] : List Int)) = false →
      GetSize (PopBack (mkInitList ([1, 2, 3] : List Int))) =
        GetSize (mkInitList ([1, 2, 3] : List Int)) - 1 ∧
      GetCapacity (PopBack (mkInitList ([1, 2, 3] : List Int))) =
        GetCapacity (mkInitList ([1, 2, 3] : List Int)) ∧
      (PopBack (mkInitList ([1, 2, 3] : List Int))).buffer =
        (mkInitList ([1, 2, 3] : List Int)).buffer ∧
      elems (PopBack (mkInitList ([1, 2, 3] : List Int))) =
        (elems (mkInitList ([1, 2, 3] : List Int))).take
          (GetSize (mkInitList ([1, 2, 3] : List Int)) - 1)) :=
  ⟨(C8_popback_no_error (mkDefault : SimpleVector Int)).1,
    (C8_popback_no_error (mkInitList ([1, 2, 3] : List Int))).2⟩

/-- C9: `size <= capacity` is established by every constructor and preserved by
every public operation: all five constructors satisfy it outright, and each
mutating or transferring operation maps vectors satisfying it to vectors
satisfying it. -/
theorem C9_size_le_capacity_invariant [Inhabited α] (v w : SimpleVector α)
    (r : ReserveProxyObj) (n p : Nat) (x : α) (l : List α)
    (hv : SizeInv v) (hw : SizeInv w) :
    SizeInv (mkDefault : SimpleVector α) ∧
    SizeInv (mkSized n : SimpleVector α) ∧
    SizeInv (mkFill n x) ∧
    SizeInv (mkInitList l) ∧
    SizeInv (fromReserve r : SimpleVector α) ∧
    SizeInv (Clear v) ∧
    SizeInv (Resize v n) ∧
    SizeInv (PushBack v x) ∧
    SizeInv (SimpleVector.Insert v p x).1 ∧
    SizeInv (PopBack v) ∧
    SizeInv (Erase v p).1 ∧
    SizeInv (ReserveCap v n) ∧
    SizeInv (swapVec v w).1 ∧
    SizeInv (swapVec v w).2 ∧
    SizeInv (copyCtor v) ∧
    SizeInv (copyAssign w v) ∧
    SizeInv (moveCtor v).1 ∧
    SizeInv (moveCtor v).2 ∧
    SizeInv (moveAssign w v).1 ∧
    SizeInv (moveAssign w v).2 := by
  simp only [SizeInv, GetSize, GetCapacity] at hv hw
  refine ⟨Nat.le_refl 0, Nat.le_refl n, Nat.le_refl n, Nat.le_refl l.length, Nat.zero_le _,
    Nat.zero_le _, resize_sizeInv v n hv, ?_, ?_, ?_, ?_, ?_, hw, hv, Nat.le_refl _,
    Nat.le_refl _, hv, Nat.zero_le _, hv, Nat.zero_le _⟩
  · have hr := resize_sizeInv v (v.size_ + 1) hv
    simpa [PushBack, SizeInv, GetSize, GetCapacity] using hr
  · have hr := resize_sizeInv v (v.size_ + 1) hv
    simpa [SimpleVector.Insert, SizeInv, GetSize, GetCapacity] using hr
  · rw [PopBack]
    split
    · exact hv
    · show v.size_ - 1 ≤ v.capacity_
      omega
  · show v.size_ - 1 ≤ v.capacity_
    omega
  · rw [ReserveCap]
    split
    · show v.size_ ≤ n
      omega
    · exact hv

/-- C9 witness: the invariant conjunction instantiated at the concrete vectors
`{1,2}` and `{9}` with `n = p = 1`, `x = 5`, `l = [4,4]` and reserve hint 7. -/
theorem C9_witness :
    SizeInv (mkInitList ([1, 2] : List Int)) ∧
    SizeInv (mkInitList ([9] : List Int)) ∧
    (SizeInv (mkDefault : SimpleVector Int) ∧
      SizeInv (mkSized 1 : SimpleVector Int) ∧
      SizeInv (mkFill 1 (5 : Int)) ∧
      SizeInv (mkInitList ([4, 4] : List Int)) ∧
      SizeInv (fromReserve (ReserveProxyObj.mk 7) : SimpleVector Int) ∧
      SizeInv (Clear (mkInitList ([1, 2] : List Int))) ∧
      SizeInv (Resize (mkInitList ([1, 2] : List Int)) 1) ∧
      SizeInv (PushBack (mkInitList ([1, 2] : List Int)) 5) ∧
      SizeInv (SimpleVector.Insert (mkInitList ([1, 2] : List Int)) 1 5).1 ∧
      SizeInv (PopBack (mkInitList ([1, 2] : List Int))) ∧
      SizeInv (Erase (mkInitList ([1, 2] : List Int)) 1).1 ∧
      SizeInv (ReserveCap (mkInitList ([1, 2] : List Int)) 1) ∧
      SizeInv (swapVec (mkInitList ([1, 2] : List Int)) (mkInitList ([9] : List Int))).1 ∧
      SizeInv (swapVec (mkInitList ([1, 2] : List Int)) (mkInitList ([9] : List Int))).2 ∧
      SizeInv (copyCtor (mkInitList ([1, 2] : List Int))) ∧
      SizeInv (copyAssign (mkInitList ([9] : List Int)) (mkInitList ([1, 2] : List Int))) ∧
      SizeInv (moveCtor (mkInitList ([1, 2] : List Int))).1 ∧
      SizeInv (moveCtor (mkInitList ([1, 2] : List Int))).2 ∧
      SizeInv (moveAssign (mkInitList ([9] : List Int)) (mkInitList ([1, 2] : List Int))).1 ∧
      SizeInv (moveAssign (mkInitList ([9] : List Int)) (mkInitList ([1, 2] : List Int))).2) :=
  ⟨Nat.le_refl 2, Nat.le_refl 1,
    C9_size_le_capacity_invariant (mkInitList ([1, 2] : List Int))
      (mkInitList ([9] : List Int)) (ReserveProxyObj.mk 7) 1 1 5 [4, 4]
      (Nat.le_refl 2) (Nat.le_refl 1)⟩

/-- C10: a copy-constructed or copy-assigned vector has the source's size and
elements, but its capacity equals the source's size (not the source's
capacity): the copy is built through `SimpleVector copy(other.size_)`. -/
theorem C10_copy_capacity_equals_size [Inhabited α] (v w : SimpleVector α) (hwf : WF v) :
    GetSize (copyCtor v) = GetSize v ∧
    GetCapacity (copyCtor v) = GetSize v ∧
    elems (copyCtor v) = elems v ∧
    copyAssign w v = copyCtor v := by
  have hts : (v.buffer.take v.size_).length = v.size_ := by
    have h1 := hwf.1
    have h2 := hwf.2
    simp only [List.length_take]
    omega
  refine ⟨rfl, rfl, ?_, rfl⟩
  show (writeSeq (mkSized v.size_ : SimpleVector α).buffer 0 (v.buffer.take v.size_)).take
      v.size_ = _
  rw [writeSeq_zero_start, List.take_append_eq_append_take, hts, Nat.sub_self, List.take_zero,
    List.append_nil, List.take_of_length_le (by omega)]
  rfl

/-- C10 witness: copying a size-3, capacity-10 vector (built by reserving
capacity 10 on `{1,2,3}`) yields size 3, capacity 3 and elements `{1,2,3}`. -/
theorem C10_witness :
    WF (ReserveCap (mkInitList ([1, 2, 3] : List Int)) 10) ∧
    (GetSize (copyCtor (ReserveCap (mkInitList ([1, 2, 3] : List Int)) 10)) =
        GetSize (ReserveCap (mkInitList ([1, 2, 3] : List Int)) 10) ∧
      GetCapacity (copyCtor (ReserveCap (mkInitList ([1, 2, 3] : List Int)) 10)) =
        GetSize (ReserveCap (mkInitList ([1, 2, 3] : List Int)) 10) ∧
      elems (copyCtor (ReserveCap (mkInitList ([1, 2, 3] : List Int)) 10)) =
        elems (ReserveCap (mkInitList ([1, 2, 3] : List Int)) 10) ∧
      copyAssign (mkInitList ([9] : List Int))
          (ReserveCap (mkInitList ([1, 2, 3] : List Int)) 10) =
        copyCtor (ReserveCap (mkInitList ([1, 2, 3] : List Int)) 10)) :=
  ⟨⟨by decide, by decide⟩,
    C10_copy_capacity_equals_size (ReserveCap (mkInitList ([1, 2, 3] : List Int)) 10)
      (mkInitList ([9] : List Int)) ⟨by decide, by decide⟩⟩

end Claims
